import Mathlib

/-!
Verification of the stall-numbering allocator of the sibulan-stall-signup
repository (`src/data/stalls.ts`), a pure TypeScript function
`getNextStallNumbers` over a list of stall records.

The embedding models JavaScript strings as Lean `String`s (lists of
characters).  JavaScript regular-expression matching of the two concrete
patterns `/stall-(\d+)/` and `/Stall\s+(\d+)/i` is modelled by explicit
first-match scanners over the character list: the engine tries each start
position left to right, and at a given position the literal part must match
(case-insensitively for the `/i` pattern), followed by a maximal run of
`\s` characters (for the second pattern) and a maximal non-empty run of
ASCII digits which is read as the captured number.  Since the character
classes `\s` and `\d` are disjoint and the literals contain neither, greedy
matching with backtracking coincides with this maximal-run reading.
`String.prototype.trim` and `toLowerCase` are modelled on the same
character lists; case folding is modelled on the basic latin range, which
covers every string the specification mentions.  JavaScript numbers are
modelled as `Nat`: every captured group is a digit string, so the values
are non-negative integers.
-/

namespace SibulanStalls

/-- The `StallStatus` union type of `stalls.ts`. -/
inductive StallStatus where
  | current
  | due
  | overdue
  | vacant
deriving DecidableEq, Repr

/-- The `StallRecord` type of `stalls.ts`.  `monthlyRent` and `dbId` are
numbers the allocator never reads; they are modelled as `Int`. -/
structure StallRecord where
  id : String
  dbId : Int
  name : String
  vendor : String
  contact : String
  type : String
  monthlyRent : Int
  lastPayment : String
  nextDue : String
  status : StallStatus
  occupied : Bool
deriving DecidableEq, Repr

/-- The character class `\s` of JavaScript regular expressions, which is
also the set of characters removed by `String.prototype.trim`. -/
def isJsSpace (c : Char) : Bool :=
  c == ' ' || c == '\t' || c == '\n' || c.toNat == 0xb || c.toNat == 0xc ||
  c == '\r' || c.toNat == 0xa0 || c.toNat == 0x1680 ||
  (0x2000 ≤ c.toNat && c.toNat ≤ 0x200a) || c.toNat == 0x2028 ||
  c.toNat == 0x2029 || c.toNat == 0x202f || c.toNat == 0x205f ||
  c.toNat == 0x3000 || c.toNat == 0xfeff

/-- `String.prototype.trim`: drop `\s` characters from both ends. -/
def jsTrim (s : String) : String :=
  ⟨((s.data.dropWhile isJsSpace).reverse.dropWhile isJsSpace).reverse⟩

/-- `String.prototype.toLowerCase`, on the basic latin range. -/
def jsToLower (s : String) : String :=
  ⟨s.data.map Char.toLower⟩

/-- The numeric value of a captured digit string, as read by `Number`. -/
def natOfDigits (ds : List Char) : Nat :=
  ds.foldl (fun n c => 10 * n + (c.toNat - '0'.toNat)) 0

/-- Match a literal character sequence at the front, case-sensitively,
returning the remainder on success. -/
def stripLit : List Char → List Char → Option (List Char)
  | [], cs => some cs
  | _ :: _, [] => none
  | p :: ps, c :: cs => if c == p then stripLit ps cs else none

/-- Match a literal character sequence at the front, case-insensitively
(basic latin case folding, as JavaScript `/i` canonicalises ASCII),
returning the remainder on success. -/
def stripLitCI : List Char → List Char → Option (List Char)
  | [], cs => some cs
  | _ :: _, [] => none
  | p :: ps, c :: cs =>
    if c.toLower == p.toLower then stripLitCI ps cs else none

/-- Attempt of `/stall-(\d+)/` at one start position: the literal
`stall-` followed by at least one digit; the capture is the maximal digit
run. -/
def matchIdAt (cs : List Char) : Option Nat :=
  match stripLit "stall-".data cs with
  | none => none
  | some rest =>
    let ds := rest.takeWhile Char.isDigit
    if ds.isEmpty then none else some (natOfDigits ds)

/-- First-match scan of `/stall-(\d+)/.exec` over the character list. -/
def scanId : List Char → Option Nat
  | [] => none
  | c :: cs =>
    match matchIdAt (c :: cs) with
    | some v => some v
    | none => scanId cs

/-- `Number(match[1])` for the first match of `/stall-(\d+)/.exec(s)`,
`none` when the pattern occurs nowhere in `s`. -/
def extractIdNum (s : String) : Option Nat :=
  scanId s.data

/-- Attempt of `/Stall\s+(\d+)/i` at one start position: the literal
`Stall` case-insensitively, then at least one `\s` character, then at
least one digit; the capture is the maximal digit run. -/
def matchNameAt (cs : List Char) : Option Nat :=
  match stripLitCI "Stall".data cs with
  | none => none
  | some rest =>
    let ws := rest.takeWhile isJsSpace
    if ws.isEmpty then none
    else
      let ds := (rest.drop ws.length).takeWhile Char.isDigit
      if ds.isEmpty then none else some (natOfDigits ds)

/-- First-match scan of `/Stall\s+(\d+)/i.exec` over the character list. -/
def scanName : List Char → Option Nat
  | [] => none
  | c :: cs =>
    match matchNameAt (c :: cs) with
    | some v => some v
    | none => scanName cs

/-- `Number(match[1])` for the first match of `/Stall\s+(\d+)/i.exec(s)`,
`none` when the pattern occurs nowhere in `s`. -/
def extractNameNum (s : String) : Option Nat :=
  scanName s.data

/-- The early-return filter test inside the name reducer:
`normalizedType !== null && stall.type.trim().toLowerCase() !== normalizedType`. -/
def skipByFilter (normalizedType : Option String) (stall : StallRecord) : Bool :=
  match normalizedType with
  | none => false
  | some nt => jsToLower (jsTrim stall.type) != nt

/-- The result object `{ nextIdNumber, nextNameNumber }`. -/
structure NextNumbers where
  nextIdNumber : Nat
  nextNameNumber : Nat
deriving DecidableEq, Repr

/-- `getNextStallNumbers` of `stalls.ts`: two `reduce` passes over the
record list, each tracking a running maximum starting at 0 and returning
the maximum plus one.  The optional second argument is
`type?: string | undefined`, normalised once to
`type?.trim().toLowerCase() ?? null`. -/
def getNextStallNumbers (stalls : List StallRecord) (type? : Option String) :
    NextNumbers :=
  let nextIdNumber :=
    (stalls.foldl (fun highest stall =>
      match extractIdNum stall.id with
      | none => highest
      | some v => max highest v) 0) + 1
  let normalizedType : Option String := type?.map fun t => jsToLower (jsTrim t)
  let nextNameNumber :=
    (stalls.foldl (fun highest stall =>
      if skipByFilter normalizedType stall then highest
      else
        match extractNameNum stall.name with
        | none => highest
        | some v => max highest v) 0) + 1
  ⟨nextIdNumber, nextNameNumber⟩

/-- A record passes the name-number type filter when the reducer does not
skip it. -/
def passesFilter (type? : Option String) (stall : StallRecord) : Bool :=
  !(skipByFilter (type?.map fun t => jsToLower (jsTrim t)) stall)

/-- A concrete record with the three fields the allocator reads; the
remaining fields take fixed values the allocator never inspects. -/
def mkRecord (i n ty : String) : StallRecord :=
  { id := i, dbId := 0, name := n, vendor := "", contact := "",
    type := ty, monthlyRent := 0, lastPayment := "", nextDue := "",
    status := StallStatus.vacant, occupied := false }

/-- The Fish record of the worked example in the specification. -/
def rFish : StallRecord := mkRecord "stall-2" "Stall 3" "Fish"

/-- The Meat record of the worked example in the specification. -/
def rMeat : StallRecord := mkRecord "stall-7" "Stall 1" "Meat"

/-- Modelled from the claim's words for the id pass: the pattern
`stall-<digits>` with `stall-` required to be a literal prefix of the id,
so the match is attempted at position 0 only. -/
def extractIdNumClaimedAnchored (s : String) : Option Nat :=
  matchIdAt s.data

/-- The id-number result as the claim describes it: maximum of the
prefix-anchored extractions, plus one. -/
def nextIdNumberClaimed (stalls : List StallRecord) : Nat :=
  (stalls.filterMap fun s => extractIdNumClaimedAnchored s.id).foldl max 0 + 1

lemma foldl_optmax (f : StallRecord → Option Nat) (l : List StallRecord)
    (a : Nat) :
    l.foldl (fun highest s =>
      match f s with
      | none => highest
      | some v => max highest v) a = (l.filterMap f).foldl max a := by
  induction l generalizing a with
  | nil => rfl
  | cons s rest ih =>
    cases h : f s <;>
      simp [List.foldl_cons, List.filterMap_cons, h, ih]

lemma foldl_skipmax (p : StallRecord → Bool) (f : StallRecord → Option Nat)
    (l : List StallRecord) (a : Nat) :
    l.foldl (fun highest s =>
      if p s then highest
      else
        match f s with
        | none => highest
        | some v => max highest v) a
      = ((l.filter fun s => !(p s)).filterMap f).foldl max a := by
  induction l generalizing a with
  | nil => rfl
  | cons s rest ih =>
    cases hp : p s
    · cases hf : f s <;>
        simp [List.foldl_cons, List.filter_cons, List.filterMap_cons, hp, hf, ih]
    · simp [List.foldl_cons, List.filter_cons, hp, ih]

lemma nextIdNumber_eq (stalls : List StallRecord) (t? : Option String) :
    (getNextStallNumbers stalls t?).nextIdNumber
      = (stalls.filterMap fun s => extractIdNum s.id).foldl max 0 + 1 :=
  congrArg (· + 1) (foldl_optmax (fun s => extractIdNum s.id) stalls 0)

lemma nextNameNumber_eq (stalls : List StallRecord) (t? : Option String) :
    (getNextStallNumbers stalls t?).nextNameNumber
      = ((stalls.filter (passesFilter t?)).filterMap
          fun s => extractNameNum s.name).foldl max 0 + 1 :=
  congrArg (· + 1)
    (foldl_skipmax (skipByFilter (t?.map fun t => jsToLower (jsTrim t)))
      (fun s => extractNameNum s.name) stalls 0)

lemma foldl_max_perm {l₁ l₂ : List Nat} (h : l₁.Perm l₂) (a : Nat) :
    l₁.foldl max a = l₂.foldl max a := by
  induction h generalizing a with
  | nil => rfl
  | cons x h ih => simpa [List.foldl_cons] using ih (max a x)
  | swap x y l =>
    simp only [List.foldl_cons]
    rw [sup_right_comm]
  | trans h₁ h₂ ih₁ ih₂ => exact (ih₁ a).trans (ih₂ a)

lemma base_le_foldl_max (l : List Nat) (a : Nat) : a ≤ l.foldl max a := by
  induction l generalizing a with
  | nil => exact le_refl a
  | cons y rest ih => exact le_trans (le_max_left a y) (ih (max a y))

lemma le_foldl_max (l : List Nat) (a x : Nat) (hx : x ∈ l) :
    x ≤ l.foldl max a := by
  induction l generalizing a with
  | nil => cases hx
  | cons y rest ih =>
    rcases List.mem_cons.mp hx with rfl | h
    · exact le_trans (le_max_right a x) (base_le_foldl_max rest (max a x))
    · exact ih (max a y) h

lemma getNext_filter_congr (stalls : List StallRecord) (t1 t2 : String)
    (h : jsToLower (jsTrim t1) = jsToLower (jsTrim t2)) :
    getNextStallNumbers stalls (some t1) = getNextStallNumbers stalls (some t2) := by
  simp only [getNextStallNumbers, Option.map_some', h]

lemma jsToLower_eq_empty_iff (s : String) : jsToLower s = "" ↔ s = "" := by
  cases s with
  | mk l =>
    simp [jsToLower, String.ext_iff, List.map_eq_nil_iff]

lemma nextNumbers_ext (x y : NextNumbers)
    (h1 : x.nextIdNumber = y.nextIdNumber)
    (h2 : x.nextNameNumber = y.nextNameNumber) : x = y := by
  cases x; cases y; cases h1; cases h2; rfl

/-- C1 counterexample: the claim requires `stall-` to be a literal prefix
of the id, so a record with id `"xstall-5"` would contribute nothing and
the claimed result would be 1; the code's regular expression is not
anchored and finds `stall-5` inside the id, so the function returns 6. -/
theorem c1_prefix_anchoring_fails :
    (getNextStallNumbers [mkRecord "xstall-5" "Stall 1" "Fish"]
      none).nextIdNumber = 6 ∧
    nextIdNumberClaimed [mkRecord "xstall-5" "Stall 1" "Fish"] = 1 ∧
    (getNextStallNumbers [mkRecord "xstall-5" "Stall 1" "Fish"]
        none).nextIdNumber ≠
      nextIdNumberClaimed [mkRecord "xstall-5" "Stall 1" "Fish"] := by
  decide

/-- C1 (amended): for every input list and any optional type filter,
`nextIdNumber` is one plus the maximum (0 when no record matches) of the
integers extracted from each record's id by the first case-sensitive match
of `stall-<digits>` anywhere in the id — not anchored to the start, as the
second conjunct witnesses on the id `"xstall-5"`. -/
theorem nextIdNumber_spec (stalls : List StallRecord) (t? : Option String) :
    (getNextStallNumbers stalls t?).nextIdNumber
      = (stalls.filterMap fun s => extractIdNum s.id).foldl max 0 + 1 ∧
    extractIdNum "xstall-5" = some 5 :=
  ⟨nextIdNumber_eq stalls t?, by decide⟩

/-- C2: for every input list and any optional type filter,
`nextNameNumber` is one plus the maximum (0 when none match) of the
integers extracted — from records passing the type filter only — by the
first case-insensitive match of `Stall\s+<digits>` anywhere in the name;
in particular the name `"Corner Stall 12 - North"` yields 12. -/
theorem nextNameNumber_spec (stalls : List StallRecord) (t? : Option String) :
    (getNextStallNumbers stalls t?).nextNameNumber
      = ((stalls.filter (passesFilter t?)).filterMap
          fun s => extractNameNum s.name).foldl max 0 + 1 ∧
    extractNameNum "Corner Stall 12 - North" = some 12 :=
  ⟨nextNameNumber_eq stalls t?, by decide⟩

/-- C3: each returned number strictly exceeds every matching extracted
value in the input for its numbering space: `nextIdNumber` exceeds every
integer the id extraction yields, and `nextNameNumber` exceeds every
integer the name extraction yields on records passing the type filter. -/
theorem next_numbers_gt_existing (stalls : List StallRecord)
    (t? : Option String) (s : StallRecord) (hs : s ∈ stalls) :
    (∀ v, extractIdNum s.id = some v →
      v < (getNextStallNumbers stalls t?).nextIdNumber) ∧
    (∀ v, passesFilter t? s = true → extractNameNum s.name = some v →
      v < (getNextStallNumbers stalls t?).nextNameNumber) := by
  constructor
  · intro v hv
    rw [nextIdNumber_eq]
    exact Nat.lt_succ_of_le
      (le_foldl_max _ 0 v (List.mem_filterMap.mpr ⟨s, hs, hv⟩))
  · intro v hp hv
    rw [nextNameNumber_eq]
    exact Nat.lt_succ_of_le
      (le_foldl_max _ 0 v
        (List.mem_filterMap.mpr ⟨s, List.mem_filter.mpr ⟨hs, hp⟩, hv⟩))

/-- Witness for C3 on the worked example: 7 extracted from `"stall-7"`
and 3 extracted from `"Stall 3"` are both exceeded. -/
theorem next_numbers_gt_existing_app :
    7 < (getNextStallNumbers [rFish, rMeat] none).nextIdNumber ∧
    3 < (getNextStallNumbers [rFish, rMeat] none).nextNameNumber := by
  have h1 := next_numbers_gt_existing [rFish, rMeat] none rMeat (by decide)
  have h2 := next_numbers_gt_existing [rFish, rMeat] none rFish (by decide)
  exact ⟨h1.1 7 (by decide), h2.2 3 (by decide) (by decide)⟩

/-- C4: on the empty record list the function returns 1 for both numbers,
whatever the optional type filter is. -/
theorem getNextStallNumbers_empty (t? : Option String) :
    getNextStallNumbers [] t? = ⟨1, 1⟩ := rfl

/-- C5: on the two-record worked example — ids `stall-2` and `stall-7`,
names `Stall 3` and `Stall 1`, types `Fish` and `Meat`, all other fields
arbitrary — the function returns `⟨8, 4⟩` both without a filter and with
the filter `"fish"` (the Meat record is excluded from the name maximum,
which the Fish record's 3 still dominates). -/
theorem getNextStallNumbers_worked_example (x1 x2 : StallRecord)
    (h1i : x1.id = "stall-2") (h1n : x1.name = "Stall 3")
    (h1t : x1.type = "Fish")
    (h2i : x2.id = "stall-7") (h2n : x2.name = "Stall 1")
    (h2t : x2.type = "Meat") :
    getNextStallNumbers [x1, x2] none = ⟨8, 4⟩ ∧
    getNextStallNumbers [x1, x2] (some "fish") = ⟨8, 4⟩ := by
  simp only [getNextStallNumbers, List.foldl_cons, List.foldl_nil,
    Option.map_some', Option.map_none', skipByFilter,
    h1i, h1n, h1t, h2i, h2n, h2t]
  exact ⟨by decide, by decide⟩

/-- Witness for C5 at concrete records. -/
theorem getNextStallNumbers_worked_example_app :
    getNextStallNumbers [rFish, rMeat] none = ⟨8, 4⟩ ∧
    getNextStallNumbers [rFish, rMeat] (some "fish") = ⟨8, 4⟩ :=
  getNextStallNumbers_worked_example rFish rMeat rfl rfl rfl rfl rfl rfl

/-- C6: the type filter never affects `nextIdNumber`: any two filter
arguments (including absence) give the same id number. -/
theorem nextIdNumber_filter_independent (stalls : List StallRecord)
    (t1? t2? : Option String) :
    (getNextStallNumbers stalls t1?).nextIdNumber
      = (getNextStallNumbers stalls t2?).nextIdNumber := rfl

/-- C7: the function is order-independent: permuting the input list leaves
both returned numbers unchanged.  (Purity and determinism hold by
construction: the embedding is a total function of its arguments.) -/
theorem getNextStallNumbers_perm (l1 l2 : List StallRecord)
    (t? : Option String) (h : l1.Perm l2) :
    getNextStallNumbers l1 t? = getNextStallNumbers l2 t? := by
  apply nextNumbers_ext
  · rw [nextIdNumber_eq, nextIdNumber_eq,
      foldl_max_perm (h.filterMap fun s => extractIdNum s.id)]
  · rw [nextNameNumber_eq, nextNameNumber_eq,
      foldl_max_perm ((h.filter (passesFilter t?)).filterMap
        fun s => extractNameNum s.name)]

/-- Witness for C7: swapping the two records of the worked example. -/
theorem getNextStallNumbers_perm_app :
    getNextStallNumbers [rFish, rMeat] none
      = getNextStallNumbers [rMeat, rFish] none :=
  getNextStallNumbers_perm [rFish, rMeat] [rMeat, rFish] none
    (List.Perm.swap rMeat rFish [])

/-- C8: the filter comparison trims and case-folds both sides: the filter
`" FISH "` behaves exactly like `"fish"` on every input list, and a record
whose stored type is `" Fish "` passes the filter `"fish"`. -/
theorem filter_trim_casefold (stalls : List StallRecord) :
    getNextStallNumbers stalls (some " FISH ")
      = getNextStallNumbers stalls (some "fish") ∧
    passesFilter (some "fish") (mkRecord "stall-9" "Stall 2" " Fish ") = true :=
  ⟨getNext_filter_congr stalls " FISH " "fish" (by decide), by decide⟩

/-- C9: a record matching neither pattern is inert: prepending it to any
input changes nothing, under any filter — it raises no error, contributes
nothing, and does not block the remaining records. -/
theorem malformed_records_inert (s : StallRecord) (rest : List StallRecord)
    (t? : Option String) (hid : extractIdNum s.id = none)
    (hname : extractNameNum s.name = none) :
    getNextStallNumbers (s :: rest) t? = getNextStallNumbers rest t? := by
  simp only [getNextStallNumbers, List.foldl_cons, hid, hname, ite_self]

/-- Witness for C9: a record with id `"bad"` and name `"no number here"`
is inert in front of the worked-example Fish record. -/
theorem malformed_records_inert_app :
    getNextStallNumbers [mkRecord "bad" "no number here" "Fish", rFish] none
      = getNextStallNumbers [rFish] none :=
  malformed_records_inert (mkRecord "bad" "no number here" "Fish") [rFish]
    none (by decide) (by decide)

/-- C10: a filter argument that trims to the empty string is treated as a
present filter, not an absent one: a record passes it exactly when its own
type trims to empty, and on the worked-example Fish record the result
differs from the no-filter result. -/
theorem empty_filter_is_present (t : String) (h : jsTrim t = "") :
    (∀ r : StallRecord,
      (passesFilter (some t) r = true ↔ jsTrim r.type = "")) ∧
    getNextStallNumbers [rFish] (some t) ≠ getNextStallNumbers [rFish] none := by
  have hlow : jsToLower (jsTrim t) = "" := by rw [h]; rfl
  constructor
  · intro r
    simp [passesFilter, skipByFilter, hlow, jsToLower_eq_empty_iff]
  · have he := getNext_filter_congr [rFish] t "" (by rw [hlow]; rfl)
    rw [he]
    decide

/-- Witness for C10 at the empty-string filter. -/
theorem empty_filter_is_present_app :
    (passesFilter (some "") rFish = true ↔ jsTrim rFish.type = "") ∧
    getNextStallNumbers [rFish] (some "") ≠ getNextStallNumbers [rFish] none := by
  have h := empty_filter_is_present "" (by decide)
  exact ⟨h.1 rFish, h.2⟩

end SibulanStalls
